import Mathlib

/-!
Verification of the uma-auto-debug log viewer core.

This file shallowly embeds the parts of the repository that the checked
properties talk about:

* `src/app.rs` — `ChannelWriter` (the line framer feeding the mpsc channel),
  `App::{on_tick, scroll_down, scroll_up}` and `App::MAX_LOG_LINES`;
* `src/ui.rs` — `draw_logs` (tail-follow / clamp policy);
* `src/tui.rs` — `Tui::{enter_alt_screen, leave_alt_screen, draw}` and the
  suspend/resume intent machinery (`take_resume_action`,
  `prepare_resume_action`, `apply_prepared_resume_action`).

Bytes and Unicode code points are modelled as `Nat`; `usize` values as `Nat`
with saturating subtraction being `Nat` subtraction and saturating addition
capped at `USIZE_MAX`.  Terminal I/O (crossterm command writes, size and
cursor queries) is modelled on its success path; fallible queries that the
code guards with `if let Ok(..)` are passed in as `Option` arguments.
-/

/-! ## LineFramer: `ChannelWriter` from `src/app.rs` -/

/-- A UTF-8 continuation byte (`0x80..=0xBF`). -/
def isCont (b : Nat) : Bool := 0x80 ≤ b && b ≤ 0xBF

/-- Admissible second byte of a three-byte sequence, per `str::from_utf8`:
`0xE0` requires `0xA0..=0xBF`, `0xED` requires `0x80..=0x9F` (excluding
surrogates), other leads require a plain continuation byte. -/
def valid3 (b1 b2 : Nat) : Bool :=
  if b1 = 0xE0 then 0xA0 ≤ b2 && b2 ≤ 0xBF
  else if b1 = 0xED then 0x80 ≤ b2 && b2 ≤ 0x9F
  else isCont b2

/-- Admissible second byte of a four-byte sequence, per `str::from_utf8`:
`0xF0` requires `0x90..=0xBF`, `0xF4` requires `0x80..=0x8F` (capping at
`U+10FFFF`), other leads require a plain continuation byte. -/
def valid4 (b1 b2 : Nat) : Bool :=
  if b1 = 0xF0 then 0x90 ≤ b2 && b2 ≤ 0xBF
  else if b1 = 0xF4 then 0x80 ≤ b2 && b2 ≤ 0x8F
  else isCont b2

/-- `String::from_utf8` on a byte list: decodes to the list of Unicode code
points, or `none` when the bytes are not valid UTF-8 (overlong forms,
surrogates and values above `U+10FFFF` are rejected, as in Rust). -/
def utf8Decode : List Nat → Option (List Nat)
  | [] => some []
  | b1 :: rest =>
    if b1 < 0x80 then (utf8Decode rest).map (fun t => b1 :: t)
    else if 0xC2 ≤ b1 ∧ b1 ≤ 0xDF then
      match rest with
      | b2 :: rest2 =>
        if isCont b2 then
          (utf8Decode rest2).map (fun t => ((b1 - 0xC0) * 0x40 + (b2 - 0x80)) :: t)
        else none
      | [] => none
    else if 0xE0 ≤ b1 ∧ b1 ≤ 0xEF then
      match rest with
      | b2 :: b3 :: rest3 =>
        if valid3 b1 b2 && isCont b3 then
          (utf8Decode rest3).map
            (fun t => ((b1 - 0xE0) * 0x1000 + (b2 - 0x80) * 0x40 + (b3 - 0x80)) :: t)
        else none
      | _ => none
    else if 0xF0 ≤ b1 ∧ b1 ≤ 0xF4 then
      match rest with
      | b2 :: b3 :: b4 :: rest4 =>
        if valid4 b1 b2 && isCont b3 && isCont b4 then
          (utf8Decode rest4).map
            (fun t =>
              ((b1 - 0xF0) * 0x40000 + (b2 - 0x80) * 0x1000 +
                (b3 - 0x80) * 0x40 + (b4 - 0x80)) :: t)
        else none
      | _ => none
    else none

/-- Rust `char::is_whitespace` (the Unicode `White_Space` property), on a
code point. -/
def isRustWhitespace (c : Nat) : Bool :=
  (0x09 ≤ c && c ≤ 0x0D) || c = 0x20 || c = 0x85 || c = 0xA0 || c = 0x1680 ||
  (0x2000 ≤ c && c ≤ 0x200A) || c = 0x2028 || c = 0x2029 || c = 0x202F ||
  c = 0x205F || c = 0x3000

/-- Rust `str::trim_end` on a decoded line: drop all trailing whitespace
code points. -/
def trimEnd (l : List Nat) : List Nat :=
  (l.reverse.dropWhile isRustWhitespace).reverse

/-- The spec's words for the LogLine transformation — "trailing `\r`/`\n`
stripped" and nothing else — used to compare the specified behaviour against
the code's `trim_end`. -/
def stripTrailingCrLf (l : List Nat) : List Nat :=
  (l.reverse.dropWhile (fun c => c = 10 || c = 13)).reverse

/-- `self.buffer.iter().position(|&b| b == b'\n')` followed by
`self.buffer.drain(..=i)`: split off the earliest newline-terminated segment
(newline included), returning it with the rest of the buffer, or `none`
when the buffer holds no newline. -/
def splitNL : List Nat → Option (List Nat × List Nat)
  | [] => none
  | b :: rest =>
    if b = 10 then some ([b], rest)
    else
      match splitNL rest with
      | some (seg, rem) => some (b :: seg, rem)
      | none => none

/-- What one extracted segment contributes to the channel: the decoded,
`trim_end`-ed line if it decodes, nothing otherwise ("Non-UTF8 lines are
silently ignored"). -/
def emitOf (seg : List Nat) : Option (List Nat) :=
  (utf8Decode seg).map trimEnd

/-- The `while let Some(i) = ...` loop of `ChannelWriter::write`, with fuel
(each iteration drains at least one byte, so any fuel at least the buffer
length is exact; see `writeLoopF_mono`).  Arguments: receiver-dropped flag,
fuel, buffer, lines sent so far.  Result: (lines sent, remaining buffer,
whether `send` failed — i.e. a `BrokenPipe` return). -/
def writeLoopF (dropped : Bool) : Nat → List Nat → List (List Nat) →
    List (List Nat) × List Nat × Bool
  | 0, buffer, sent => (sent, buffer, false)
  | fuel + 1, buffer, sent =>
    match splitNL buffer with
    | none => (sent, buffer, false)
    | some (seg, rest) =>
      match utf8Decode seg with
      | some cps =>
        if dropped then (sent, rest, true)
        else writeLoopF dropped fuel rest (sent ++ [trimEnd cps])
      | none => writeLoopF dropped fuel rest sent

/-- The extraction loop run to completion. -/
def writeRun (dropped : Bool) (buffer : List Nat) (sent : List (List Nat)) :
    List (List Nat) × List Nat × Bool :=
  writeLoopF dropped buffer.length buffer sent

/-- `ChannelWriter`'s observable state: its internal byte buffer, and the
lines that have been sent into the mpsc channel (in order). -/
structure ChannelWriter where
  buffer : List Nat
  sent : List (List Nat)
deriving DecidableEq

/-- `std::io::Result<usize>` as returned by `write`: success with the byte
count, or the `BrokenPipe` error built when the channel receiver is gone. -/
inductive WriteResult where
  | ok (n : Nat)
  | brokenPipe
deriving DecidableEq

/-- `ChannelWriter::write`: append the chunk to the buffer, extract and send
every complete line, and return `Ok(buf.len())` — unless a `send` failed
because the receiver was dropped, in which case return the `BrokenPipe`
error (with the erroring line already drained from the buffer). -/
def ChannelWriter.write (dropped : Bool) (chunk : List Nat) (w : ChannelWriter) :
    ChannelWriter × WriteResult :=
  let r := writeRun dropped (w.buffer ++ chunk) w.sent
  (⟨r.2.1, r.1⟩, if r.2.2 then WriteResult.brokenPipe else WriteResult.ok chunk.length)

/-- Modelled from the spec: the pump's blocking read call
(`ADBServerDevice::get_logs`, from the external `adb_client` crate, invoked
in `App::setup_adb`) "blocks until the device disconnects or the writer
returns an error" — a read loop handing byte chunks to the writer that
stops at the first erroring write.  Returns the final writer state and
whether the loop exited because of a writer error. -/
def pumpRun (dropped : Bool) : List (List Nat) → ChannelWriter → ChannelWriter × Bool
  | [], w => (w, false)
  | c :: cs, w =>
    match ChannelWriter.write dropped c w with
    | (w', WriteResult.brokenPipe) => (w', true)
    | (w', WriteResult.ok _) => pumpRun dropped cs w'

/-- A newline-terminated segment: it ends in `\n` and contains no earlier
`\n`. -/
def IsSeg (seg : List Nat) : Prop :=
  seg = seg.dropLast ++ [10] ∧ 10 ∉ seg.dropLast

/-! ## ScrollbackBuffer and ScrollState: `App` from `src/app.rs`, `draw_logs`
from `src/ui.rs` -/

/-- The fields of `App` (commented implementation in `src/app.rs`) that the
log pipeline and scroll policy touch.  `log_receiver` holds the lines
currently queued in the channel (`None` before `setup_adb`).  The cosmetic
ratatui `ScrollbarState` mirror is omitted. -/
structure App where
  should_quit : Bool
  follow_tail : Bool
  vertical_scroll : Nat
  logs_buffer : List (List Nat)
  log_receiver : Option (List (List Nat))
deriving DecidableEq

/-- `App::MAX_LOG_LINES` — "Cap the buffer to prevent unbounded memory
growth". -/
def MAX_LOG_LINES : Nat := 65536

/-- `App::new()`. -/
def App.new : App :=
  { should_quit := false, follow_tail := true, vertical_scroll := 0,
    logs_buffer := [], log_receiver := none }

/-- The `while let Ok(log_line) = rx.try_recv()` drain loop in `on_tick`:
push each queued line onto the tail of the buffer. -/
def drainAll : List (List Nat) → List (List Nat) → List (List Nat)
  | [], buf => buf
  | l :: rest, buf => drainAll rest (buf ++ [l])

/-- `App::on_tick`: drain the channel into `logs_buffer`.  The capping block
(`if self.logs_buffer.len() > Self::MAX_LOG_LINES { ... }`) is commented out
in the source, so no eviction happens here. -/
def App.on_tick (s : App) : App :=
  match s.log_receiver with
  | some queue => { s with logs_buffer := drainAll queue s.logs_buffer,
                           log_receiver := some [] }
  | none => s

/-- `usize::MAX` on the 64-bit target. -/
def USIZE_MAX : Nat := 2 ^ 64 - 1

/-- `usize::saturating_add`. -/
def usatAdd (a b : Nat) : Nat := min (a + b) USIZE_MAX

/-- `App::scroll_down`: `saturating_add(1)`, leave tail-follow mode. -/
def App.scroll_down (s : App) : App :=
  { s with vertical_scroll := usatAdd s.vertical_scroll 1, follow_tail := false }

/-- `App::scroll_up`: `saturating_sub(1)`, leave tail-follow mode. -/
def App.scroll_up (s : App) : App :=
  { s with vertical_scroll := s.vertical_scroll - 1, follow_tail := false }

/-- `draw_logs`: inner height of the bordered paragraph
(`area.height.saturating_sub(2)`). -/
def innerHeight (areaHeight : Nat) : Nat := areaHeight - 2

/-- `draw_logs`: `max_scroll = total_lines.saturating_sub(inner_height)`. -/
def maxScroll (totalLines inner : Nat) : Nat := totalLines - inner

/-- The scroll-state mutation of `draw_logs` (`src/ui.rs`): with
`follow_tail` set, pin the offset to `max_scroll`; otherwise clamp it down
to `max_scroll` if the content shrank or the viewport grew.  (The rest of
the function renders the visible window and scrollbar.) -/
def draw_logs (areaHeight : Nat) (s : App) : App :=
  let total := s.logs_buffer.length
  let inner := innerHeight areaHeight
  let ms := maxScroll total inner
  if s.follow_tail then { s with vertical_scroll := ms }
  else if ms < s.vertical_scroll then { s with vertical_scroll := ms }
  else s

/-! ## ViewportController: `Tui` from `src/tui.rs` -/

/-- `ratatui::layout::Rect` (fields are `u16`). -/
structure Rect where
  x : Nat
  y : Nat
  width : Nat
  height : Nat
deriving DecidableEq

/-- A terminal size (`width`/`height` of `ratatui::layout::Size`). -/
structure ScreenSize where
  width : Nat
  height : Nat
deriving DecidableEq

/-- The `Tui`/terminal state the viewport claims touch.  `viewport_area`,
`last_known_screen_size` and `last_known_cursor_y` live in the
`custom_terminal::Terminal` (declared in `src/main.rs` but its file is not
in the sources); they are modelled from the spec's ViewportState
(`savedInlineArea`, `lastKnownSize`, `lastKnownCursorRow`).
`resume_pending` is the `AtomicU8` holding the encoded `ResumeAction`. -/
structure TuiState where
  viewport_area : Rect
  alt_saved_viewport : Option Rect
  alt_screen_active : Bool
  resume_pending : Nat
  last_known_screen_size : ScreenSize
  last_known_cursor_y : Nat
deriving DecidableEq

/-- `Tui::enter_alt_screen`.  The `EnterAlternateScreen` /
`EnableAlternateScroll` writes are best-effort side effects; `sizeRes`
models the `if let Ok(size) = self.terminal.size()` query.  On success the
current inline viewport is saved and the viewport becomes the full screen;
either way the alternate-screen flag is set. -/
def enter_alt_screen (sizeRes : Option ScreenSize) (s : TuiState) : TuiState :=
  match sizeRes with
  | some sz =>
    { s with alt_saved_viewport := some s.viewport_area,
             viewport_area := ⟨0, 0, sz.width, sz.height⟩,
             alt_screen_active := true }
  | none => { s with alt_screen_active := true }

/-- `Tui::leave_alt_screen`: restore the saved inline viewport if present
(`alt_saved_viewport.take()`), and clear the alternate-screen flag. -/
def leave_alt_screen (s : TuiState) : TuiState :=
  match s.alt_saved_viewport with
  | some saved =>
    { s with viewport_area := saved, alt_saved_viewport := none,
             alt_screen_active := false }
  | none => { s with alt_screen_active := false }

/-- `ResumeAction` (`src/tui.rs`), encoded in the `AtomicU8` as 0/1/2. -/
inductive ResumeAction where
  | None
  | RealignInline
  | RestoreAlt
deriving DecidableEq

/-- Decoding of the `AtomicU8` value, as in `take_resume_action`'s match. -/
def decodeResumeAction (v : Nat) : ResumeAction :=
  match v with
  | 1 => ResumeAction.RealignInline
  | 2 => ResumeAction.RestoreAlt
  | _ => ResumeAction.None

/-- `take_resume_action`: `pending.swap(ResumeAction::None as u8, ..)` —
return the decoded previous value and leave `None` (0) behind. -/
def take_resume_action (pending : Nat) : ResumeAction × Nat :=
  (decodeResumeAction pending, 0)

/-- `PreparedResumeAction` (`src/tui.rs`). -/
inductive PreparedResumeAction where
  | RestoreAltScreen
  | RealignViewport (area : Rect)
deriving DecidableEq

/-- `Tui::prepare_resume_action`, on the success path of the cursor-position
queries (`cursorY` is the row the terminal reports).  `RealignInline`
prepares a viewport realigned to the cursor row; `RestoreAlt` refreshes the
saved viewport's row and prepares an alternate-screen restore; `None`
prepares nothing. -/
def prepare_resume_action (cursorY : Nat) (s : TuiState) (a : ResumeAction) :
    TuiState × Option PreparedResumeAction :=
  match a with
  | ResumeAction.RealignInline =>
    (s, some (PreparedResumeAction.RealignViewport ⟨0, cursorY, 0, 0⟩))
  | ResumeAction.RestoreAlt =>
    (match s.alt_saved_viewport with
     | some saved => { s with alt_saved_viewport := some { saved with y := cursorY } }
     | none => s,
     some PreparedResumeAction.RestoreAltScreen)
  | ResumeAction.None => (s, none)

/-- `Tui::apply_prepared_resume_action`, on the success path of the terminal
writes and size query (`sz`): realign the inline viewport, or re-enter the
alternate screen at full size (and clear it). -/
def apply_prepared_resume_action (sz : ScreenSize) (s : TuiState)
    (p : PreparedResumeAction) : TuiState :=
  match p with
  | PreparedResumeAction.RealignViewport area => { s with viewport_area := area }
  | PreparedResumeAction.RestoreAltScreen =>
    { s with viewport_area := ⟨0, 0, sz.width, sz.height⟩ }

/-- The resume portion of `Tui::draw`: take the pending intent, prepare it,
and apply the prepared action inside the synchronized update (lines 404 and
426-429 of `src/tui.rs`). -/
def drawResumePhase (cursorY : Nat) (sz : ScreenSize) (s : TuiState) : TuiState :=
  let taken := take_resume_action s.resume_pending
  let s1 := { s with resume_pending := taken.2 }
  let prep := prepare_resume_action cursorY s1 taken.1
  match prep.2 with
  | some p => apply_prepared_resume_action sz prep.1 p
  | none => prep.1

/-- `ratatui::layout::Rect::offset` (external collaborator, modelled from
ratatui): translate by a signed delta, clamping each coordinate into
`0..=u16::MAX - size` so the rectangle stays addressable. -/
def rectOffset (r : Rect) (dx dy : Int) : Rect :=
  { r with
    x := (max 0 (min ((r.x : Int) + dx) (65535 - (r.width : Int)))).toNat,
    y := (max 0 (min ((r.y : Int) + dy) (65535 - (r.height : Int)))).toNat }

/-- The current terminal readings taken at the top of `Tui::draw`
(`terminal.size()?` and `terminal.get_cursor_position()?`, success path). -/
structure DrawCtx where
  screen_size : ScreenSize
  cursor_y : Nat
deriving DecidableEq

/-- The resize-realignment portion of `Tui::draw` (lines 405-421 and
431-434): only when the screen size differs from the last known size is the
cursor position consulted; if the cursor row also moved, the viewport is
shifted by the row delta (and the terminal cleared). -/
def resizeRealign (ctx : DrawCtx) (s : TuiState) : TuiState :=
  let pending : Option Rect :=
    if ctx.screen_size ≠ s.last_known_screen_size then
      if ctx.cursor_y ≠ s.last_known_cursor_y then
        some (rectOffset s.viewport_area 0
          ((ctx.cursor_y : Int) - (s.last_known_cursor_y : Int)))
      else none
    else none
  match pending with
  | some area => { s with viewport_area := area }
  | none => s

/-- Decidability of `IsSeg`, for evaluating concrete instances. -/
instance (seg : List Nat) : Decidable (IsSeg seg) := by
  unfold IsSeg; infer_instance

/-! ## Lemmas about the framing loop -/

theorem splitNL_none_iff (l : List Nat) : splitNL l = none ↔ 10 ∉ l := by
  induction l with
  | nil => simp [splitNL]
  | cons b rest ih =>
    by_cases hb : b = 10
    · subst hb
      simp [splitNL]
    · cases h : splitNL rest with
      | none =>
        simp only [splitNL, if_neg hb, h]
        constructor
        · intro _ hmem
          rcases List.mem_cons.mp hmem with h1 | h1
          · exact hb h1.symm
          · exact (ih.mp h) h1
        · intro _
          trivial
      | some p =>
        obtain ⟨seg, rem⟩ := p
        simp only [splitNL, if_neg hb, h]
        constructor
        · intro hc
          cases hc
        · intro hnm
          exfalso
          have h10 : 10 ∈ rest := by
            by_contra hr
            rw [ih.mpr hr] at h
            cases h
          exact hnm (List.mem_cons_of_mem _ h10)

theorem splitNL_some_spec : ∀ (l seg rem : List Nat), splitNL l = some (seg, rem) →
    l = seg ++ rem ∧ rem.length < l.length := by
  intro l
  induction l with
  | nil => intro seg rem h; simp [splitNL] at h
  | cons b rest ih =>
    intro seg rem h
    by_cases hb : b = 10
    · subst hb
      rw [splitNL.eq_def] at h
      simp only [if_pos rfl] at h
      injection h with h
      injection h with h1 h2
      subst h1
      subst h2
      exact ⟨rfl, by simp⟩
    · rw [splitNL.eq_def] at h
      simp only [if_neg hb] at h
      cases hs : splitNL rest with
      | none => rw [hs] at h; cases h
      | some p =>
        obtain ⟨s2, r2⟩ := p
        rw [hs] at h
        injection h with h
        injection h with h1 h2
        subst h2
        subst h1
        obtain ⟨he, hl⟩ := ih s2 r2 hs
        constructor
        · rw [he, List.cons_append]
        · rw [List.length_cons]
          omega

theorem splitNL_seg : ∀ (s r : List Nat), 10 ∉ s →
    splitNL (s ++ 10 :: r) = some (s ++ [10], r) := by
  intro s
  induction s with
  | nil => intro r _; simp [splitNL]
  | cons b s ih =>
    intro r hns
    have hb : ¬ b = 10 := by
      intro hb
      exact hns (by simp [hb])
    have hmem : 10 ∉ s := fun hm => hns (List.mem_cons_of_mem _ hm)
    rw [List.cons_append, splitNL.eq_def]
    simp only [if_neg hb]
    rw [ih r hmem]
    rfl

theorem splitNL_append : ∀ (B C seg rest : List Nat), splitNL B = some (seg, rest) →
    splitNL (B ++ C) = some (seg, rest ++ C) := by
  intro B
  induction B with
  | nil => intro C seg rest h; simp [splitNL] at h
  | cons b B ih =>
    intro C seg rest h
    by_cases hb : b = 10
    · subst hb
      rw [splitNL.eq_def] at h
      simp only [if_pos rfl] at h
      injection h with h
      injection h with h1 h2
      subst h1
      subst h2
      simp [splitNL]
    · rw [splitNL.eq_def] at h
      simp only [if_neg hb] at h
      cases hs : splitNL B with
      | none => rw [hs] at h; cases h
      | some p =>
        obtain ⟨s2, r2⟩ := p
        rw [hs] at h
        injection h with h
        injection h with h1 h2
        subst h2
        subst h1
        rw [List.cons_append, splitNL.eq_def]
        simp only [if_neg hb]
        rw [ih C s2 r2 hs]

theorem writeLoopF_no_nl (d : Bool) (f : Nat) (buf : List Nat)
    (sent : List (List Nat)) (h : 10 ∉ buf) :
    writeLoopF d f buf sent = (sent, buf, false) := by
  cases f with
  | zero => rfl
  | succ f => simp [writeLoopF, (splitNL_none_iff buf).mpr h]

theorem writeLoopF_mono (d : Bool) : ∀ (fuel k : Nat) (buf : List Nat)
    (sent : List (List Nat)), buf.length ≤ fuel →
    writeLoopF d (fuel + k) buf sent = writeLoopF d fuel buf sent := by
  intro fuel
  induction fuel with
  | zero =>
    intro k buf sent hlen
    have hb : buf = [] := List.length_eq_zero.mp (Nat.le_zero.mp hlen)
    subst hb
    cases k with
    | zero => rfl
    | succ k => simp [writeLoopF, splitNL]
  | succ fuel ih =>
    intro k buf sent hlen
    have hk : fuel + 1 + k = (fuel + k) + 1 := by omega
    rw [hk]
    cases hs : splitNL buf with
    | none => simp [writeLoopF, hs]
    | some p =>
      obtain ⟨seg, rest⟩ := p
      have hrest : rest.length ≤ fuel := by
        have := (splitNL_some_spec buf seg rest hs).2
        omega
      cases hd : utf8Decode seg with
      | some cps =>
        cases d with
        | true => simp [writeLoopF, hs, hd]
        | false =>
          simp only [writeLoopF, hs, hd, Bool.false_eq_true, if_false]
          exact ih k rest (sent ++ [trimEnd cps]) hrest
      | none =>
        simp only [writeLoopF, hs, hd]
        exact ih k rest sent hrest

theorem writeLoopF_eq_writeRun (d : Bool) (f : Nat) (buf : List Nat)
    (sent : List (List Nat)) (h : buf.length ≤ f) :
    writeLoopF d f buf sent = writeRun d buf sent := by
  obtain ⟨k, hk⟩ : ∃ k, f = buf.length + k := ⟨f - buf.length, by omega⟩
  subst hk
  exact writeLoopF_mono d buf.length k buf sent (le_refl _)

theorem writeLoopF_false_ok : ∀ (fuel : Nat) (buf : List Nat)
    (sent : List (List Nat)), (writeLoopF false fuel buf sent).2.2 = false := by
  intro fuel
  induction fuel with
  | zero => intro buf sent; rfl
  | succ fuel ih =>
    intro buf sent
    cases hs : splitNL buf with
    | none => simp [writeLoopF, hs]
    | some p =>
      obtain ⟨seg, rest⟩ := p
      cases hd : utf8Decode seg with
      | some cps =>
        simp only [writeLoopF, hs, hd, Bool.false_eq_true, if_false]
        exact ih rest (sent ++ [trimEnd cps])
      | none =>
        simp only [writeLoopF, hs, hd]
        exact ih rest sent

theorem writeLoopF_buffer_no_nl : ∀ (fuel : Nat) (buf : List Nat)
    (sent : List (List Nat)), buf.length ≤ fuel →
    10 ∉ (writeLoopF false fuel buf sent).2.1 := by
  intro fuel
  induction fuel with
  | zero =>
    intro buf sent hlen
    have hb : buf = [] := List.length_eq_zero.mp (Nat.le_zero.mp hlen)
    subst hb
    simp [writeLoopF]
  | succ fuel ih =>
    intro buf sent hlen
    cases hs : splitNL buf with
    | none =>
      simp only [writeLoopF, hs]
      exact (splitNL_none_iff buf).mp hs
    | some p =>
      obtain ⟨seg, rest⟩ := p
      have hrest : rest.length ≤ fuel := by
        have := (splitNL_some_spec buf seg rest hs).2
        omega
      cases hd : utf8Decode seg with
      | some cps =>
        simp only [writeLoopF, hs, hd, Bool.false_eq_true, if_false]
        exact ih rest (sent ++ [trimEnd cps]) hrest
      | none =>
        simp only [writeLoopF, hs, hd]
        exact ih rest sent hrest

theorem IsSeg.ne_nil {seg : List Nat} (h : IsSeg seg) : seg ≠ [] := by
  intro he
  rw [he] at h
  simp [IsSeg] at h

theorem writeLoopF_segs : ∀ (fuel : Nat) (segs : List (List Nat))
    (leftover : List Nat) (sent : List (List Nat)),
    (segs.flatten ++ leftover).length ≤ fuel →
    (∀ seg ∈ segs, IsSeg seg) → 10 ∉ leftover →
    writeLoopF false fuel (segs.flatten ++ leftover) sent
      = (sent ++ segs.filterMap emitOf, leftover, false) := by
  intro fuel
  induction fuel with
  | zero =>
    intro segs leftover sent hlen hsegs hleft
    have h0 : segs.flatten ++ leftover = [] :=
      List.length_eq_zero.mp (Nat.le_zero.mp hlen)
    obtain ⟨hf, hl⟩ := List.append_eq_nil.mp h0
    cases segs with
    | nil =>
      subst hl
      simp [writeLoopF]
    | cons seg rest =>
      exfalso
      have hiseg := hsegs seg (List.mem_cons_self _ _)
      have hne : seg ≠ [] := hiseg.ne_nil
      rw [List.flatten_cons] at hf
      exact hne (List.append_eq_nil.mp hf).1
  | succ fuel ih =>
    intro segs leftover sent hlen hsegs hleft
    cases segs with
    | nil =>
      simp only [List.flatten_nil, List.nil_append] at hlen ⊢
      simp [writeLoopF, (splitNL_none_iff leftover).mpr hleft]
    | cons seg rest =>
      obtain ⟨hseg, hns⟩ := hsegs seg (List.mem_cons_self _ _)
      have hbuf : (seg :: rest).flatten ++ leftover
          = seg.dropLast ++ 10 :: (rest.flatten ++ leftover) := by
        conv_lhs => rw [List.flatten_cons, hseg]
        simp [List.append_assoc]
      rw [hbuf]
      have hsplit := splitNL_seg seg.dropLast (rest.flatten ++ leftover) hns
      have hlen2 : (rest.flatten ++ leftover).length ≤ fuel := by
        rw [hbuf] at hlen
        simp only [List.length_append, List.length_cons] at hlen ⊢
        omega
      have hrest : ∀ s ∈ rest, IsSeg s := fun s hs => hsegs s (List.mem_cons_of_mem _ hs)
      rw [writeLoopF.eq_def]
      simp only [hsplit]
      rw [← hseg]
      cases hd : utf8Decode seg with
      | some cps =>
        simp only [Bool.false_eq_true, if_false]
        rw [ih rest leftover (sent ++ [trimEnd cps]) hlen2 hrest hleft]
        simp [emitOf, hd, List.filterMap_cons, List.append_assoc]
      | none =>
        rw [ih rest leftover sent hlen2 hrest hleft]
        simp [emitOf, hd, List.filterMap_cons]

theorem writeLoopF_dropped_err : ∀ (fuel : Nat) (segs : List (List Nat))
    (leftover : List Nat) (sent : List (List Nat)),
    (segs.flatten ++ leftover).length ≤ fuel →
    (∀ seg ∈ segs, IsSeg seg) → 10 ∉ leftover →
    (∃ seg ∈ segs, (utf8Decode seg).isSome = true) →
    (writeLoopF true fuel (segs.flatten ++ leftover) sent).2.2 = true := by
  intro fuel
  induction fuel with
  | zero =>
    intro segs leftover sent hlen hsegs hleft hex
    exfalso
    have h0 : segs.flatten ++ leftover = [] :=
      List.length_eq_zero.mp (Nat.le_zero.mp hlen)
    obtain ⟨hf, hl⟩ := List.append_eq_nil.mp h0
    obtain ⟨seg, hmem, _⟩ := hex
    cases segs with
    | nil => cases hmem
    | cons s rest =>
      have hiseg := hsegs s (List.mem_cons_self _ _)
      rw [List.flatten_cons] at hf
      exact hiseg.ne_nil (List.append_eq_nil.mp hf).1
  | succ fuel ih =>
    intro segs leftover sent hlen hsegs hleft hex
    cases segs with
    | nil =>
      obtain ⟨seg, hmem, _⟩ := hex
      cases hmem
    | cons seg rest =>
      obtain ⟨hseg, hns⟩ := hsegs seg (List.mem_cons_self _ _)
      have hbuf : (seg :: rest).flatten ++ leftover
          = seg.dropLast ++ 10 :: (rest.flatten ++ leftover) := by
        conv_lhs => rw [List.flatten_cons, hseg]
        simp [List.append_assoc]
      rw [hbuf]
      have hsplit := splitNL_seg seg.dropLast (rest.flatten ++ leftover) hns
      have hlen2 : (rest.flatten ++ leftover).length ≤ fuel := by
        rw [hbuf] at hlen
        simp only [List.length_append, List.length_cons] at hlen ⊢
        omega
      have hrest : ∀ s ∈ rest, IsSeg s := fun s hs => hsegs s (List.mem_cons_of_mem _ hs)
      rw [writeLoopF.eq_def]
      simp only [hsplit]
      rw [← hseg]
      cases hd : utf8Decode seg with
      | some cps => simp
      | none =>
        have hex2 : ∃ s ∈ rest, (utf8Decode s).isSome = true := by
          obtain ⟨s, hmem, hsome⟩ := hex
          rcases List.mem_cons.mp hmem with h1 | h1
          · exfalso
            rw [h1, hd] at hsome
            cases hsome
          · exact ⟨s, h1, hsome⟩
        exact ih rest leftover sent hlen2 hrest hleft hex2

theorem writeLoopF_append : ∀ (fuel : Nat) (B C : List Nat) (sent : List (List Nat)),
    B.length ≤ fuel →
    writeRun false ((writeLoopF false fuel B sent).2.1 ++ C)
        (writeLoopF false fuel B sent).1
      = writeRun false (B ++ C) sent := by
  intro fuel
  induction fuel with
  | zero =>
    intro B C sent hlen
    have hb : B = [] := List.length_eq_zero.mp (Nat.le_zero.mp hlen)
    subst hb
    rfl
  | succ fuel ih =>
    intro B C sent hlen
    cases hs : splitNL B with
    | none =>
      simp only [writeLoopF, hs]
    | some p =>
      obtain ⟨seg, rest⟩ := p
      obtain ⟨hBe, hlt⟩ := splitNL_some_spec B seg rest hs
      have hBC := splitNL_append B C seg rest hs
      have hrest : rest.length ≤ fuel := by omega
      have hRHS : writeRun false (B ++ C) sent
          = writeLoopF false ((B ++ C).length + 1) (B ++ C) sent :=
        (writeLoopF_eq_writeRun false _ _ _ (Nat.le_succ _)).symm
      have hlen3 : (rest ++ C).length ≤ (B ++ C).length := by
        simp only [List.length_append]
        omega
      rw [hRHS]
      cases hd : utf8Decode seg with
      | some cps =>
        simp only [writeLoopF, hs, hd, hBC, Bool.false_eq_true, if_false]
        rw [writeLoopF_eq_writeRun false _ _ _ hlen3]
        exact ih rest C (sent ++ [trimEnd cps]) hrest
      | none =>
        simp only [writeLoopF, hs, hd, hBC]
        rw [writeLoopF_eq_writeRun false _ _ _ hlen3]
        exact ih rest C sent hrest

theorem writeRun_append (B C : List Nat) (sent : List (List Nat)) :
    writeRun false ((writeRun false B sent).2.1 ++ C) (writeRun false B sent).1
      = writeRun false (B ++ C) sent :=
  writeLoopF_append B.length B C sent (le_refl _)

theorem ChannelWriter.write_false_ok (chunk : List Nat) (w : ChannelWriter) :
    (ChannelWriter.write false chunk w).2 = WriteResult.ok chunk.length := by
  simp only [ChannelWriter.write, writeRun, writeLoopF_false_ok,
    Bool.false_eq_true, if_false]

theorem write_write_fst (c1 c2 : List Nat) (w : ChannelWriter) :
    (ChannelWriter.write false c2 (ChannelWriter.write false c1 w).1).1
      = (ChannelWriter.write false (c1 ++ c2) w).1 := by
  simp only [ChannelWriter.write]
  rw [writeRun_append (w.buffer ++ c1) c2 w.sent, List.append_assoc]

theorem pumpRun_false_eq : ∀ (chunks : List (List Nat)) (w : ChannelWriter),
    10 ∉ w.buffer →
    pumpRun false chunks w = ((ChannelWriter.write false chunks.flatten w).1, false) := by
  intro chunks
  induction chunks with
  | nil =>
    intro w hw
    have h1 : writeRun false (w.buffer ++ []) w.sent = (w.sent, w.buffer, false) := by
      rw [List.append_nil]
      exact writeLoopF_no_nl false w.buffer.length w.buffer w.sent hw
    simp only [pumpRun, List.flatten_nil, ChannelWriter.write, h1]
  | cons c cs ih =>
    intro w hw
    have hok := ChannelWriter.write_false_ok c w
    cases hcw : ChannelWriter.write false c w with
    | mk w1 res =>
      rw [hcw] at hok
      simp only at hok
      subst hok
      have hw1 : 10 ∉ w1.buffer := by
        have hb := writeLoopF_buffer_no_nl (w.buffer ++ c).length (w.buffer ++ c)
          w.sent (le_refl _)
        have hfst : w1 = (ChannelWriter.write false c w).1 := by rw [hcw]
        rw [hfst]
        exact hb
      simp only [pumpRun, hcw]
      rw [ih w1 hw1]
      have hfst : w1 = (ChannelWriter.write false c w).1 := by rw [hcw]
      rw [List.flatten_cons, hfst, write_write_fst]

theorem drainAll_eq : ∀ (queue buf : List (List Nat)),
    drainAll queue buf = buf ++ queue := by
  intro queue
  induction queue with
  | nil => intro buf; simp [drainAll]
  | cons l rest ih =>
    intro buf
    simp only [drainAll, ih]
    simp [List.append_assoc]

theorem filterMap_emitOf_eq_map : ∀ (segs : List (List Nat)),
    (∀ seg ∈ segs, (utf8Decode seg).isSome = true) →
    segs.filterMap emitOf
      = segs.map (fun seg => trimEnd ((utf8Decode seg).getD [])) := by
  intro segs
  induction segs with
  | nil => intro _; rfl
  | cons seg rest ih =>
    intro h
    have hh := h seg (List.mem_cons_self _ _)
    cases hd : utf8Decode seg with
    | none =>
      rw [hd] at hh
      cases hh
    | some cps =>
      simp [List.filterMap_cons, List.map_cons, emitOf, hd,
        ih (fun s hs => h s (List.mem_cons_of_mem _ hs))]

theorem dropLast_append_single (l : List Nat) (a : Nat) : (l ++ [a]).dropLast = l := by
  simp

/-! ## Claim theorems -/

/-- Claim C1 (code-bug evidence): draining `MAX_LOG_LINES + 1` queued lines
into an empty `logs_buffer` leaves `MAX_LOG_LINES + 1` lines, violating the
`length ≤ MAX_LINES` invariant — `on_tick` never evicts, because the capping
block guarded by `MAX_LOG_LINES` is commented out in the source, against its
own "Cap the buffer to prevent unbounded memory growth" comment. -/
theorem on_tick_exceeds_max_log_lines :
    (App.on_tick { App.new with
        log_receiver := some (List.replicate (MAX_LOG_LINES + 1) ([] : List Nat))
      }).logs_buffer.length = MAX_LOG_LINES + 1
    ∧ ¬ ((App.on_tick { App.new with
        log_receiver := some (List.replicate (MAX_LOG_LINES + 1) ([] : List Nat))
      }).logs_buffer.length ≤ MAX_LOG_LINES) := by
  have h : (App.on_tick { App.new with
      log_receiver := some (List.replicate (MAX_LOG_LINES + 1) ([] : List Nat))
    }).logs_buffer.length = MAX_LOG_LINES + 1 := by
    simp [App.on_tick, App.new, drainAll_eq]
  exact ⟨h, by omega⟩

/-- Claim C3 (counterexample): from the initial state, `scroll_down` moves
the offset to 1 while `maxScroll` is 0 — the result of a manual scroll input
is NOT clamped to `[0, maxScroll]` at input time, contradicting the claim as
stated. -/
theorem scroll_down_not_clamped_cex :
    (App.scroll_down App.new).vertical_scroll = 1
    ∧ (App.scroll_down App.new).follow_tail = false
    ∧ maxScroll (App.scroll_down App.new).logs_buffer.length (innerHeight 24) = 0
    ∧ ¬ ((App.scroll_down App.new).vertical_scroll
          ≤ maxScroll (App.scroll_down App.new).logs_buffer.length (innerHeight 24)) := by
  refine ⟨?_, rfl, rfl, ?_⟩
  · simp [App.scroll_down, App.new, usatAdd, USIZE_MAX]
  · intro hc
    have h1 : (App.scroll_down App.new).vertical_scroll = 1 := by
      simp [App.scroll_down, App.new, usatAdd, USIZE_MAX]
    rw [h1] at hc
    exact absurd hc (by decide)

/-- Claim C3 (amended): a manual scroll input leaves tail-follow mode and
changes the offset by exactly ±1, saturating at 0 (`scroll_up`) and at
`usize::MAX` (`scroll_down`), without an immediate upper clamp; the offset
is clamped into `[0, maxScroll]` at the next redraw by `draw_logs`, which
also pins it to `maxScroll` whenever `followTail` is set. -/
theorem scroll_and_follow_tail_behavior (s : App) (areaHeight : Nat) :
    (App.scroll_down s).follow_tail = false
    ∧ (App.scroll_down s).vertical_scroll = min (s.vertical_scroll + 1) USIZE_MAX
    ∧ (App.scroll_up s).follow_tail = false
    ∧ (App.scroll_up s).vertical_scroll = s.vertical_scroll - 1
    ∧ (draw_logs areaHeight s).vertical_scroll
        = (if s.follow_tail then maxScroll s.logs_buffer.length (innerHeight areaHeight)
           else min s.vertical_scroll (maxScroll s.logs_buffer.length (innerHeight areaHeight)))
    ∧ (draw_logs areaHeight s).vertical_scroll
        ≤ maxScroll s.logs_buffer.length (innerHeight areaHeight)
    ∧ (draw_logs areaHeight (App.scroll_down s)).vertical_scroll
        = min (min (s.vertical_scroll + 1) USIZE_MAX)
            (maxScroll s.logs_buffer.length (innerHeight areaHeight)) := by
  have hd : ∀ t : App, (draw_logs areaHeight t).vertical_scroll
      = (if t.follow_tail then maxScroll t.logs_buffer.length (innerHeight areaHeight)
         else if maxScroll t.logs_buffer.length (innerHeight areaHeight) < t.vertical_scroll
         then maxScroll t.logs_buffer.length (innerHeight areaHeight)
         else t.vertical_scroll) := by
    intro t
    simp only [draw_logs]
    split_ifs <;> rfl
  refine ⟨rfl, rfl, rfl, rfl, ?_, ?_, ?_⟩
  · rw [hd s]
    split_ifs <;> omega
  · rw [hd s]
    split_ifs <;> omega
  · rw [hd (App.scroll_down s)]
    simp only [App.scroll_down, usatAdd, Bool.false_eq_true, if_false]
    split_ifs <;> omega

/-- Claim C7: entering the alternate screen from an inline session (no saved
inline rectangle, per the spec invariant) and leaving it again restores the
inline viewport rectangle exactly and clears the saved rectangle — whether
or not the size query during `enter_alt_screen` succeeded. -/
theorem alt_screen_roundtrip_restores_viewport (s : TuiState)
    (sizeRes : Option ScreenSize) (hinline : s.alt_saved_viewport = none) :
    (leave_alt_screen (enter_alt_screen sizeRes s)).viewport_area = s.viewport_area
    ∧ (leave_alt_screen (enter_alt_screen sizeRes s)).alt_saved_viewport = none := by
  cases sizeRes with
  | some sz => simp [enter_alt_screen, leave_alt_screen]
  | none => simp [enter_alt_screen, leave_alt_screen, hinline]

/-- Claim C7 witness: a concrete inline session round-trips its viewport
rectangle through the alternate screen. -/
theorem alt_screen_roundtrip_witness :
    (leave_alt_screen (enter_alt_screen (some ⟨100, 40⟩)
        ⟨⟨1, 2, 3, 4⟩, none, false, 0, ⟨80, 24⟩, 5⟩)).viewport_area = ⟨1, 2, 3, 4⟩
    ∧ (leave_alt_screen (enter_alt_screen (some ⟨100, 40⟩)
        ⟨⟨1, 2, 3, 4⟩, none, false, 0, ⟨80, 24⟩, 5⟩)).alt_saved_viewport = none :=
  alt_screen_roundtrip_restores_viewport
    ⟨⟨1, 2, 3, 4⟩, none, false, 0, ⟨80, 24⟩, 5⟩ (some ⟨100, 40⟩) rfl

/-- Claim C10: `leave_alt_screen` with no saved inline rectangle leaves the
viewport area (and every other field) unchanged, except for clearing the
alternate-screen-active flag. -/
theorem leave_alt_screen_without_saved_viewport (s : TuiState)
    (h : s.alt_saved_viewport = none) :
    leave_alt_screen s = { s with alt_screen_active := false } := by
  simp [leave_alt_screen, h]

/-- Claim C10 witness: a concrete alternate-screen state with no saved
rectangle. -/
theorem leave_alt_screen_without_saved_viewport_witness :
    leave_alt_screen ⟨⟨1, 2, 3, 4⟩, none, true, 2, ⟨80, 24⟩, 9⟩
      = ⟨⟨1, 2, 3, 4⟩, none, false, 2, ⟨80, 24⟩, 9⟩ :=
  leave_alt_screen_without_saved_viewport
    ⟨⟨1, 2, 3, 4⟩, none, true, 2, ⟨80, 24⟩, 9⟩ rfl

/-- Claim C2 (counterexample): the chunk `"a \n"` is a single
newline-terminated valid-UTF-8 segment, yet the emitted line is `"a"` — the
code's `trim_end()` removed the trailing space as well, so the emitted line
does not equal the segment with only trailing `\r`/`\n` stripped (`"a "`). -/
theorem write_trims_all_trailing_whitespace_cex :
    (pumpRun false [[97, 32, 10]] ⟨[], []⟩).1.sent = [[97]]
    ∧ stripTrailingCrLf ((utf8Decode [97, 32, 10]).getD []) = [97, 32]
    ∧ ¬ ((pumpRun false [[97, 32, 10]] ⟨[], []⟩).1.sent
          = [stripTrailingCrLf ((utf8Decode [97, 32, 10]).getD [])]) := by
  decide

/-- Claim C2 (amended): for chunks whose concatenation is exactly the given
newline-terminated valid-UTF-8 segments with no trailing partial line,
feeding them to `ChannelWriter::write` emits exactly one line per segment,
in order, where each line is the segment decoded and stripped of ALL
trailing whitespace (Rust `str::trim_end`), not only `\r`/`\n`; every write
succeeds and the framer's buffer ends empty. -/
theorem framer_emits_trimmed_lines (chunks segs : List (List Nat))
    (hflat : chunks.flatten = segs.flatten)
    (hsegs : ∀ seg ∈ segs, IsSeg seg)
    (hvalid : ∀ seg ∈ segs, (utf8Decode seg).isSome = true) :
    (pumpRun false chunks ⟨[], []⟩).1.sent
      = segs.map (fun seg => trimEnd ((utf8Decode seg).getD []))
    ∧ (pumpRun false chunks ⟨[], []⟩).1.sent.length = segs.length
    ∧ (pumpRun false chunks ⟨[], []⟩).2 = false
    ∧ (pumpRun false chunks ⟨[], []⟩).1.buffer = [] := by
  have hp := pumpRun_false_eq chunks ⟨[], []⟩ (by simp)
  have hw : ChannelWriter.write false chunks.flatten ⟨[], []⟩
      = (⟨[], segs.filterMap emitOf⟩, WriteResult.ok chunks.flatten.length) := by
    have hseg := writeLoopF_segs (segs.flatten ++ []).length segs [] []
        (le_refl _) hsegs (by simp)
    rw [List.append_nil] at hseg
    have hrun : writeRun false chunks.flatten ([] : List (List Nat))
        = (segs.filterMap emitOf, [], false) := by
      rw [hflat]
      exact hseg
    simp [ChannelWriter.write, hrun]
  rw [hp, hw]
  refine ⟨?_, ?_, rfl, rfl⟩
  · exact filterMap_emitOf_eq_map segs hvalid
  · simp [filterMap_emitOf_eq_map segs hvalid]

/-- Claim C2 witness: the spec's own example — chunks `"AB"`, `"C\nDE"`,
`"F\n"` concatenate to two segments and emit exactly `"ABC"` then `"DEF"`. -/
theorem framer_emits_trimmed_lines_witness :
    (pumpRun false [[65, 66], [67, 10, 68, 69], [70, 10]] ⟨[], []⟩).1.sent
      = [[65, 66, 67], [68, 69, 70]]
    ∧ (pumpRun false [[65, 66], [67, 10, 68, 69], [70, 10]] ⟨[], []⟩).2 = false := by
  have h := framer_emits_trimmed_lines [[65, 66], [67, 10, 68, 69], [70, 10]]
    [[65, 66, 67, 10], [68, 69, 70, 10]] (by decide) (by decide) (by decide)
  exact ⟨h.1.trans (by decide), h.2.2.1⟩

/-- Claim C5: a call to `write` whose buffer-plus-chunk splits into
newline-terminated segments followed by a newline-free remainder succeeds
with `Ok(chunk.len())` regardless of decoding failures; undecodable
segments contribute no line (`emitOf` is `none` on them) while every
decodable segment still emits, in order. -/
theorem invalid_utf8_silently_dropped (w : ChannelWriter) (chunk : List Nat)
    (segs : List (List Nat)) (leftover : List Nat)
    (hdecomp : w.buffer ++ chunk = segs.flatten ++ leftover)
    (hsegs : ∀ seg ∈ segs, IsSeg seg) (hleft : 10 ∉ leftover) :
    ChannelWriter.write false chunk w
      = (⟨leftover, w.sent ++ segs.filterMap emitOf⟩, WriteResult.ok chunk.length) := by
  have hrun : writeRun false (w.buffer ++ chunk) w.sent
      = (w.sent ++ segs.filterMap emitOf, leftover, false) := by
    rw [hdecomp]
    exact writeLoopF_segs (segs.flatten ++ leftover).length segs leftover w.sent
      (le_refl _) hsegs hleft
  simp [ChannelWriter.write, hrun]

/-- Claim C5 witness: the chunk `[0xFF, \n, 'a', \n]` holds an invalid
segment then a valid one; the call succeeds, drops the invalid segment and
still emits `"a"`. -/
theorem invalid_utf8_silently_dropped_witness :
    ChannelWriter.write false [255, 10, 97, 10] ⟨[], []⟩
      = (⟨[], [[97]]⟩, WriteResult.ok 4) := by
  have h := invalid_utf8_silently_dropped ⟨[], []⟩ [255, 10, 97, 10]
    [[255, 10], [97, 10]] [] (by decide) (by decide) (by decide)
  exact h.trans (by decide)

/-- Claim C6: bytes after the last newline are retained in the framer's
buffer (which stays newline-free) and emit no line; they are emitted only
once a later call supplies the closing newline, at which point they form
the front of that line and the buffer empties. -/
theorem partial_line_retained (w : ChannelWriter) (chunk : List Nat)
    (segs : List (List Nat)) (leftover : List Nat)
    (hdecomp : w.buffer ++ chunk = segs.flatten ++ leftover)
    (hsegs : ∀ seg ∈ segs, IsSeg seg) (hleft : 10 ∉ leftover) :
    (ChannelWriter.write false chunk w).1.buffer = leftover
    ∧ (ChannelWriter.write false chunk w).1.sent = w.sent ++ segs.filterMap emitOf
    ∧ ∀ pre : List Nat, 10 ∉ pre →
        (ChannelWriter.write false (pre ++ [10])
            (ChannelWriter.write false chunk w).1).1.sent
          = (w.sent ++ segs.filterMap emitOf)
              ++ [leftover ++ pre ++ [10]].filterMap emitOf
        ∧ (ChannelWriter.write false (pre ++ [10])
            (ChannelWriter.write false chunk w).1).1.buffer = [] := by
  have hrun : writeRun false (w.buffer ++ chunk) w.sent
      = (w.sent ++ segs.filterMap emitOf, leftover, false) := by
    rw [hdecomp]
    exact writeLoopF_segs (segs.flatten ++ leftover).length segs leftover w.sent
      (le_refl _) hsegs hleft
  have hw1 : (ChannelWriter.write false chunk w).1
      = ⟨leftover, w.sent ++ segs.filterMap emitOf⟩ := by
    simp [ChannelWriter.write, hrun]
  refine ⟨by rw [hw1], by rw [hw1], ?_⟩
  intro pre hpre
  rw [hw1]
  have hseg2 : IsSeg (leftover ++ pre ++ [10]) := by
    constructor
    · rw [dropLast_append_single]
    · rw [dropLast_append_single]
      intro hmem
      rcases List.mem_append.mp hmem with h1 | h1
      · exact hleft h1
      · exact hpre h1
  have hd2 : leftover ++ (pre ++ [10]) = [leftover ++ pre ++ [10]].flatten ++ [] := by
    simp [List.append_assoc]
  have hrun2 : writeRun false (leftover ++ (pre ++ [10]))
      (w.sent ++ segs.filterMap emitOf)
      = ((w.sent ++ segs.filterMap emitOf)
          ++ [leftover ++ pre ++ [10]].filterMap emitOf, [], false) := by
    rw [hd2]
    exact writeLoopF_segs ([leftover ++ pre ++ [10]].flatten ++ []).length
      [leftover ++ pre ++ [10]] [] (w.sent ++ segs.filterMap emitOf)
      (le_refl _) (by simpa using hseg2) (by simp)
  constructor
  · simp [ChannelWriter.write, hrun2]
  · simp [ChannelWriter.write, hrun2]

/-- Claim C6 witness: `"a\nb"` retains `"b"`; a later `"c\n"` emits `"bc"`
and empties the buffer. -/
theorem partial_line_retained_witness :
    (ChannelWriter.write false [97, 10, 98] ⟨[], []⟩).1.buffer = [98]
    ∧ (ChannelWriter.write false [97, 10, 98] ⟨[], []⟩).1.sent = [[97]]
    ∧ (ChannelWriter.write false [99, 10]
        (ChannelWriter.write false [97, 10, 98] ⟨[], []⟩).1).1.sent = [[97], [98, 99]]
    ∧ (ChannelWriter.write false [99, 10]
        (ChannelWriter.write false [97, 10, 98] ⟨[], []⟩).1).1.buffer = [] := by
  have h := partial_line_retained ⟨[], []⟩ [97, 10, 98] [[97, 10]] [98]
    (by decide) (by decide) (by decide)
  have h3 := h.2.2 [99] (by decide)
  exact ⟨h.1, h.2.1.trans (by decide),
    (by simpa using h3.1 : _), by simpa using h3.2⟩

/-- Claim C4: with the Mailbox consumer dropped, a `write` call that
completes (extracts) a decodable newline-terminated line — a LogLine in the
spec's sense — returns the `BrokenPipe` error, and the pump's read loop
exits at that point, leaving the remaining chunks unread; a dropped-consumer
call that completes no line still returns `Ok`, so the error surfaces on
the next line-completing call. -/
theorem consumer_gone_breaks_pipe (w : ChannelWriter) (chunk : List Nat)
    (cs : List (List Nat)) (segs : List (List Nat)) (leftover : List Nat)
    (hdecomp : w.buffer ++ chunk = segs.flatten ++ leftover)
    (hsegs : ∀ seg ∈ segs, IsSeg seg) (hleft : 10 ∉ leftover)
    (hvalid : ∃ seg ∈ segs, (utf8Decode seg).isSome = true) :
    (ChannelWriter.write true chunk w).2 = WriteResult.brokenPipe
    ∧ pumpRun true (chunk :: cs) w = ((ChannelWriter.write true chunk w).1, true)
    ∧ ∀ (w2 : ChannelWriter) (c2 : List Nat), 10 ∉ w2.buffer ++ c2 →
        (ChannelWriter.write true c2 w2).2 = WriteResult.ok c2.length := by
  have herr : (writeRun true (w.buffer ++ chunk) w.sent).2.2 = true := by
    rw [hdecomp]
    exact writeLoopF_dropped_err (segs.flatten ++ leftover).length segs leftover
      w.sent (le_refl _) hsegs hleft hvalid
  have h2 : (ChannelWriter.write true chunk w).2 = WriteResult.brokenPipe := by
    simp [ChannelWriter.write, herr]
  refine ⟨h2, ?_, ?_⟩
  · cases hcw : ChannelWriter.write true chunk w with
    | mk w1 res =>
      rw [hcw] at h2
      simp only at h2
      subst h2
      simp [pumpRun, hcw]
  · intro w2 c2 hno
    have hr : writeRun true (w2.buffer ++ c2) w2.sent
        = (w2.sent, w2.buffer ++ c2, false) :=
      writeLoopF_no_nl true _ _ _ hno
    simp [ChannelWriter.write, hr]

/-- Claim C4 witness: with the consumer dropped, feeding `"hi\n"` yields
`BrokenPipe` and the pump loop exits immediately, never touching the
following chunk. -/
theorem consumer_gone_breaks_pipe_witness :
    (ChannelWriter.write true [104, 105, 10] ⟨[], []⟩).2 = WriteResult.brokenPipe
    ∧ pumpRun true [[104, 105, 10], [107]] ⟨[], []⟩
        = ((ChannelWriter.write true [104, 105, 10] ⟨[], []⟩).1, true) := by
  have h := consumer_gone_breaks_pipe ⟨[], []⟩ [104, 105, 10] [[107]]
    [[104, 105, 10]] [] (by decide) (by decide) (by decide) (by decide)
  exact ⟨h.1, h.2.1⟩

/-- Claim C8 (counterexample): suspended from the alternate screen with the
saved inline rectangle (and last known screen size) recording an 80x24
terminal, a resume that finds the terminal at 100x40 restores the alternate
surface at 100x40 — the current size queried at resume — not at the saved
80x24, refuting the claim's "restore the alternate surface at its saved
size". -/
theorem restore_alt_uses_current_size_cex :
    (⟨⟨1, 2, 3, 4⟩, some ⟨0, 6, 80, 24⟩, true, 2, ⟨80, 24⟩, 6⟩
        : TuiState).alt_saved_viewport = some ⟨0, 6, 80, 24⟩
    ∧ (⟨⟨1, 2, 3, 4⟩, some ⟨0, 6, 80, 24⟩, true, 2, ⟨80, 24⟩, 6⟩
        : TuiState).last_known_screen_size = ⟨80, 24⟩
    ∧ (drawResumePhase 5 ⟨100, 40⟩
        ⟨⟨1, 2, 3, 4⟩, some ⟨0, 6, 80, 24⟩, true, 2, ⟨80, 24⟩, 6⟩).viewport_area
      = ⟨0, 0, 100, 40⟩
    ∧ (drawResumePhase 5 ⟨100, 40⟩
        ⟨⟨1, 2, 3, 4⟩, some ⟨0, 6, 80, 24⟩, true, 2, ⟨80, 24⟩, 6⟩).viewport_area
      ≠ ⟨0, 0, 80, 24⟩ := by
  decide

/-- Claim C8 (amended): the pending resume intent is consumed exactly once —
every draw's resume phase leaves the pending slot at `None` (0), so a
following draw with nothing pending performs no resume action at all; a
pending `RealignInline` (1) realigns the inline viewport to the current
cursor row and a pending `RestoreAlt` (2) restores the alternate surface at
the CURRENT terminal size queried at resume (not the size in effect when it
was saved), each exactly once. -/
theorem resume_intent_consumed_once (s : TuiState) (cy cy2 : Nat)
    (sz sz2 : ScreenSize) :
    (drawResumePhase cy sz s).resume_pending = 0
    ∧ drawResumePhase cy2 sz2 (drawResumePhase cy sz s) = drawResumePhase cy sz s
    ∧ (s.resume_pending = 0 → drawResumePhase cy sz s = s)
    ∧ (s.resume_pending = 1 → drawResumePhase cy sz s
        = { s with resume_pending := 0, viewport_area := ⟨0, cy, 0, 0⟩ })
    ∧ (s.resume_pending = 2 →
        (drawResumePhase cy sz s).viewport_area = ⟨0, 0, sz.width, sz.height⟩
        ∧ (drawResumePhase cy sz s).resume_pending = 0) := by
  have hpend : ∀ (t : TuiState) (cya : Nat) (sza : ScreenSize),
      (drawResumePhase cya sza t).resume_pending = 0 := by
    intro t cya sza
    simp only [drawResumePhase, take_resume_action]
    cases hd : decodeResumeAction t.resume_pending with
    | None => simp [prepare_resume_action]
    | RealignInline => simp [prepare_resume_action, apply_prepared_resume_action]
    | RestoreAlt =>
      cases hsv : t.alt_saved_viewport with
      | some r => simp [prepare_resume_action, apply_prepared_resume_action, hsv]
      | none => simp [prepare_resume_action, apply_prepared_resume_action, hsv]
  have hnoop : ∀ (t : TuiState) (cya : Nat) (sza : ScreenSize),
      t.resume_pending = 0 → drawResumePhase cya sza t = t := by
    intro t cya sza h0
    cases t with
    | mk va sv act rp ls lc =>
      simp only at h0
      subst h0
      simp [drawResumePhase, take_resume_action, decodeResumeAction,
        prepare_resume_action]
  refine ⟨hpend s cy sz, hnoop _ cy2 sz2 (hpend s cy sz), hnoop s cy sz, ?_, ?_⟩
  · intro h1
    simp [drawResumePhase, take_resume_action, h1, decodeResumeAction,
      prepare_resume_action, apply_prepared_resume_action]
  · intro h2
    simp only [drawResumePhase, take_resume_action, h2]
    cases hsv : s.alt_saved_viewport with
    | some r =>
      simp [decodeResumeAction, prepare_resume_action,
        apply_prepared_resume_action, hsv]
    | none =>
      simp [decodeResumeAction, prepare_resume_action,
        apply_prepared_resume_action, hsv]

/-- Claim C8 witness: concrete states with pending intents 0, 1 and 2. -/
theorem resume_intent_consumed_once_witness :
    (drawResumePhase 7 ⟨80, 24⟩
        ⟨⟨1, 2, 3, 4⟩, some ⟨0, 6, 80, 3⟩, true, 2, ⟨80, 24⟩, 5⟩).resume_pending = 0
    ∧ drawResumePhase 9 ⟨90, 30⟩ (drawResumePhase 7 ⟨80, 24⟩
          ⟨⟨1, 2, 3, 4⟩, some ⟨0, 6, 80, 3⟩, true, 2, ⟨80, 24⟩, 5⟩)
        = drawResumePhase 7 ⟨80, 24⟩
          ⟨⟨1, 2, 3, 4⟩, some ⟨0, 6, 80, 3⟩, true, 2, ⟨80, 24⟩, 5⟩
    ∧ drawResumePhase 7 ⟨80, 24⟩ ⟨⟨1, 2, 3, 4⟩, none, false, 0, ⟨80, 24⟩, 5⟩
        = ⟨⟨1, 2, 3, 4⟩, none, false, 0, ⟨80, 24⟩, 5⟩
    ∧ drawResumePhase 7 ⟨80, 24⟩ ⟨⟨1, 2, 3, 4⟩, none, false, 1, ⟨80, 24⟩, 5⟩
        = ⟨⟨0, 7, 0, 0⟩, none, false, 0, ⟨80, 24⟩, 5⟩
    ∧ (drawResumePhase 7 ⟨80, 24⟩
        ⟨⟨1, 2, 3, 4⟩, some ⟨0, 6, 80, 3⟩, true, 2, ⟨80, 24⟩, 5⟩).viewport_area
        = ⟨0, 0, 80, 24⟩ := by
  refine ⟨(resume_intent_consumed_once
      ⟨⟨1, 2, 3, 4⟩, some ⟨0, 6, 80, 3⟩, true, 2, ⟨80, 24⟩, 5⟩ 7 9 ⟨80, 24⟩ ⟨90, 30⟩).1,
    (resume_intent_consumed_once
      ⟨⟨1, 2, 3, 4⟩, some ⟨0, 6, 80, 3⟩, true, 2, ⟨80, 24⟩, 5⟩ 7 9 ⟨80, 24⟩ ⟨90, 30⟩).2.1,
    (resume_intent_consumed_once
      ⟨⟨1, 2, 3, 4⟩, none, false, 0, ⟨80, 24⟩, 5⟩ 7 7 ⟨80, 24⟩ ⟨80, 24⟩).2.2.1 rfl,
    ((resume_intent_consumed_once
      ⟨⟨1, 2, 3, 4⟩, none, false, 1, ⟨80, 24⟩, 5⟩ 7 7 ⟨80, 24⟩ ⟨80, 24⟩).2.2.2.1 rfl).trans
      (by decide),
    ((resume_intent_consumed_once
      ⟨⟨1, 2, 3, 4⟩, some ⟨0, 6, 80, 3⟩, true, 2, ⟨80, 24⟩, 5⟩ 7 7 ⟨80, 24⟩
        ⟨80, 24⟩).2.2.2.2 rfl).1⟩

/-- Claim C9 (counterexample): with the terminal size unchanged but the
cursor row moved from 5 to 7 (delta 2), `Tui::draw` does not shift the
viewport rectangle — the size-change guard comes first, so "size or cursor
row changed" plus a cursor shift is not sufficient for realignment. -/
theorem realign_requires_size_change_cex :
    (⟨⟨80, 24⟩, 7⟩ : DrawCtx).screen_size
        = (⟨⟨0, 10, 80, 3⟩, none, false, 0, ⟨80, 24⟩, 5⟩ : TuiState).last_known_screen_size
    ∧ (⟨⟨80, 24⟩, 7⟩ : DrawCtx).cursor_y
        ≠ (⟨⟨0, 10, 80, 3⟩, none, false, 0, ⟨80, 24⟩, 5⟩ : TuiState).last_known_cursor_y
    ∧ (resizeRealign ⟨⟨80, 24⟩, 7⟩
        ⟨⟨0, 10, 80, 3⟩, none, false, 0, ⟨80, 24⟩, 5⟩).viewport_area = ⟨0, 10, 80, 3⟩
    ∧ rectOffset ⟨0, 10, 80, 3⟩ 0 2 = ⟨0, 12, 80, 3⟩
    ∧ (resizeRealign ⟨⟨80, 24⟩, 7⟩
        ⟨⟨0, 10, 80, 3⟩, none, false, 0, ⟨80, 24⟩, 5⟩).viewport_area
        ≠ rectOffset ⟨0, 10, 80, 3⟩ 0 2 := by
  decide

/-- Claim C9 (amended): the viewport is shifted only when BOTH the terminal
size and the cursor row changed since the last draw, and then by exactly
the cursor-row delta via `Rect::offset` (so exactly `d` rows whenever the
shifted row stays inside the `u16` range); if the size is unchanged or the
cursor row is unchanged, the viewport rectangle is left alone. -/
theorem resize_realignment_behavior (ctx : DrawCtx) (s : TuiState) :
    (ctx.screen_size = s.last_known_screen_size → resizeRealign ctx s = s)
    ∧ (ctx.cursor_y = s.last_known_cursor_y → resizeRealign ctx s = s)
    ∧ (ctx.screen_size ≠ s.last_known_screen_size →
        ctx.cursor_y ≠ s.last_known_cursor_y →
        (resizeRealign ctx s).viewport_area
          = rectOffset s.viewport_area 0
              ((ctx.cursor_y : Int) - (s.last_known_cursor_y : Int))
        ∧ ((0 : Int) ≤ (s.viewport_area.y : Int)
              + ((ctx.cursor_y : Int) - (s.last_known_cursor_y : Int)) →
            (s.viewport_area.y : Int)
                + ((ctx.cursor_y : Int) - (s.last_known_cursor_y : Int))
              ≤ 65535 - (s.viewport_area.height : Int) →
            ((resizeRealign ctx s).viewport_area.y : Int)
              = (s.viewport_area.y : Int)
                + ((ctx.cursor_y : Int) - (s.last_known_cursor_y : Int)))) := by
  refine ⟨?_, ?_, ?_⟩
  · intro h
    simp [resizeRealign, h]
  · intro h
    simp [resizeRealign, h]
  · intro h1 h2
    have hva : (resizeRealign ctx s).viewport_area
        = rectOffset s.viewport_area 0
            ((ctx.cursor_y : Int) - (s.last_known_cursor_y : Int)) := by
      simp [resizeRealign, h1, h2]
    refine ⟨hva, ?_⟩
    intro hlo hhi
    rw [hva]
    simp only [rectOffset]
    omega

/-- Claim C9 witness: instances for each case — size unchanged (no shift),
cursor unchanged (no shift), and both changed (shift by the delta 2). -/
theorem resize_realignment_behavior_witness :
    resizeRealign ⟨⟨80, 24⟩, 7⟩ ⟨⟨0, 10, 80, 3⟩, none, false, 0, ⟨80, 24⟩, 5⟩
      = ⟨⟨0, 10, 80, 3⟩, none, false, 0, ⟨80, 24⟩, 5⟩
    ∧ resizeRealign ⟨⟨80, 20⟩, 5⟩ ⟨⟨0, 10, 80, 3⟩, none, false, 0, ⟨80, 24⟩, 5⟩
      = ⟨⟨0, 10, 80, 3⟩, none, false, 0, ⟨80, 24⟩, 5⟩
    ∧ (resizeRealign ⟨⟨80, 20⟩, 7⟩
        ⟨⟨0, 10, 80, 3⟩, none, false, 0, ⟨80, 24⟩, 5⟩).viewport_area
      = ⟨0, 12, 80, 3⟩ := by
  refine ⟨(resize_realignment_behavior ⟨⟨80, 24⟩, 7⟩
      ⟨⟨0, 10, 80, 3⟩, none, false, 0, ⟨80, 24⟩, 5⟩).1 (by decide),
    (resize_realignment_behavior ⟨⟨80, 20⟩, 5⟩
      ⟨⟨0, 10, 80, 3⟩, none, false, 0, ⟨80, 24⟩, 5⟩).2.1 (by decide),
    (((resize_realignment_behavior ⟨⟨80, 20⟩, 7⟩
      ⟨⟨0, 10, 80, 3⟩, none, false, 0, ⟨80, 24⟩, 5⟩).2.2 (by decide) (by decide)).1).trans
      (by decide)⟩
